import Mathlib

/-!
Shallow embedding of the SalesSight `ml_model` package (preprocess / forecast /
evaluate / recommend / train / inference) and proofs about its claims.

Numeric modelling conventions:
* Python floats are modelled as exact rationals (`ℚ`); a value that can be NaN
  is modelled as `Option ℚ` with `none` playing the role of NaN.
* Python's `round(x, n)` (round-half-to-even) is modelled by `pyRound`.
* `rmse` is the square root of the mean squared error; the embedding returns
  the (rational) mean squared error and the square root is taken at the
  statement level with `Real.sqrt`.
* Python dicts keyed by product name are modelled as association lists in
  insertion order; `dinsert` is dict assignment (overwrite in place or append),
  `lookupA` is dict lookup.
-/

namespace SalesSight

/-- Mean of a list of rationals, `sum / len` (callers guard against `[]`,
mirroring `pandas.Series.mean` on a nonempty series). -/
def qmean (l : List ℚ) : ℚ := l.sum / l.length

/-- Mean as pandas computes it: NaN (here `none`) on an empty series. -/
def meanOpt (l : List ℚ) : Option ℚ := if l = [] then none else some (qmean l)

/-- Round-half-to-even on rationals, the semantics of Python's builtin
`round` (ignoring binary floating-point representation error). -/
def rhe (x : ℚ) : ℤ :=
  if x - ⌊x⌋ < 1/2 then ⌊x⌋
  else if 1/2 < x - ⌊x⌋ then ⌊x⌋ + 1
  else if ⌊x⌋ % 2 = 0 then ⌊x⌋ else ⌊x⌋ + 1

/-- Python's `round(x, n)` on rationals. -/
def pyRound (n : ℕ) (x : ℚ) : ℚ := (rhe (x * 10 ^ n) : ℚ) / 10 ^ n

theorem floor_le_rhe (x : ℚ) : ⌊x⌋ ≤ rhe x := by
  unfold rhe
  split
  · exact le_refl _
  · split
    · exact Int.le.intro 1 rfl
    · split
      · exact le_refl _
      · exact Int.le.intro 1 rfl

theorem rhe_le_ceil (x : ℚ) : rhe x ≤ ⌈x⌉ := by
  unfold rhe
  have hfc : (⌊x⌋ : ℤ) ≤ ⌈x⌉ := Int.floor_le_ceil x
  have hplus : ¬ (x - (⌊x⌋ : ℚ) < 1/2) → ⌊x⌋ + 1 ≤ ⌈x⌉ := by
    intro h
    have hx : (⌊x⌋ : ℚ) < x := by
      have : (1:ℚ)/2 ≤ x - ⌊x⌋ := le_of_not_lt h
      linarith
    exact Int.lt_ceil.mpr hx
  split
  · exact hfc
  · next h =>
    split
    · exact hplus h
    · split
      · exact hfc
      · exact hplus h

theorem rhe_intCast (k : ℤ) : rhe (k : ℚ) = k := by
  unfold rhe
  simp [Int.floor_intCast]

theorem rhe_of_lt_half {x : ℚ} (h : x - ⌊x⌋ < 1/2) : rhe x = ⌊x⌋ :=
  if_pos h

theorem rhe_nonneg {x : ℚ} (hx : 0 ≤ x) : 0 ≤ rhe x :=
  le_trans (Int.floor_nonneg.mpr hx) (floor_le_rhe x)

/-- Rounding to 4 places maps `[0,1]` into `[0,1]`. -/
theorem pyRound4_mem_unit {x : ℚ} (h0 : 0 ≤ x) (h1 : x ≤ 1) :
    0 ≤ pyRound 4 x ∧ pyRound 4 x ≤ 1 := by
  unfold pyRound
  constructor
  · have hnum : (0:ℤ) ≤ rhe (x * 10 ^ 4) := rhe_nonneg (by positivity)
    have : (0:ℚ) ≤ (rhe (x * 10 ^ 4) : ℚ) := by exact_mod_cast hnum
    positivity
  · have hle : x * 10 ^ 4 ≤ ((10 ^ 4 : ℤ) : ℚ) := by push_cast; nlinarith
    have hceil : ⌈x * 10 ^ 4⌉ ≤ (10 ^ 4 : ℤ) := Int.ceil_le.mpr hle
    have hnum : rhe (x * 10 ^ 4) ≤ (10 ^ 4 : ℤ) :=
      le_trans (rhe_le_ceil _) hceil
    have hq : (rhe (x * 10 ^ 4) : ℚ) ≤ ((10 ^ 4 : ℤ) : ℚ) := by exact_mod_cast hnum
    rw [div_le_one (by positivity)]
    push_cast at hq ⊢
    linarith

/-- If `x` is an integer multiple of `10 ^ (-n)` then `pyRound n` is the
identity on `x`. -/
theorem pyRound_eq_self {n : ℕ} {x : ℚ} {k : ℤ} (h : x * 10 ^ n = (k : ℚ)) :
    pyRound n x = x := by
  unfold pyRound
  rw [h, rhe_intCast, ← h]
  field_simp

/-- recommend.compute_growth_rate's core formula; also the inline guard in
inference.get_recommendations_from_models (lines 99-102): zero when the
baseline average is nonpositive, else the relative growth in percent. -/
def growthRate (pastAvg futureAvg : ℚ) : ℚ :=
  if pastAvg ≤ 0 then 0 else (futureAvg - pastAvg) / pastAvg * 100

/-- recommend.compute_growth_rate on two series, NaN-aware: pandas means of
empty series are NaN, `NaN <= 0` is false in Python, and NaN then propagates
through the arithmetic, so the result is `none`. -/
def compute_growth_rate (past_sales future_sales : List ℚ) : Option ℚ :=
  match meanOpt past_sales with
  | none => none
  | some pa =>
    if pa ≤ 0 then some 0
    else (meanOpt future_sales).map (fun fa => (fa - pa) / pa * 100)

/-- Python dict lookup on an insertion-ordered association list. -/
def lookupA {α β : Type} [DecidableEq α] : List (α × β) → α → Option β
  | [], _ => none
  | kv :: t, a => if a = kv.1 then some kv.2 else lookupA t a

/-- Python dict assignment `d[k] = v`: overwrite in place if the key is
present, else append at the end. -/
def dinsert {α β : Type} [DecidableEq α] : List (α × β) → α → β → List (α × β)
  | [], k, v => [(k, v)]
  | kv :: t, k, v => if kv.1 = k then (k, v) :: t else kv :: dinsert t k v

theorem lookupA_dinsert {α β : Type} [DecidableEq α]
    (l : List (α × β)) (k : α) (v : β) (a : α) :
    lookupA (dinsert l k v) a = if a = k then some v else lookupA l a := by
  induction l with
  | nil => simp [dinsert, lookupA]
  | cons kv t ih =>
    by_cases hk : kv.1 = k
    · subst hk
      by_cases ha : a = kv.1 <;> simp [dinsert, lookupA, ha]
    · by_cases ha : a = kv.1
      · subst ha
        simp [dinsert, lookupA, hk, Ne.symm hk]
      · simp [dinsert, lookupA, hk, ha, ih]

theorem lookupA_append {α β : Type} [DecidableEq α]
    (l₁ l₂ : List (α × β)) (a : α) :
    lookupA (l₁ ++ l₂) a =
      match lookupA l₁ a with
      | some v => some v
      | none => lookupA l₂ a := by
  induction l₁ with
  | nil => simp [lookupA]
  | cons kv t ih =>
    by_cases ha : a = kv.1 <;> simp [lookupA, ha, ih]

/-- Python `max` on a nonempty list (`0` as junk value on `[]`, which the
embedding never reaches: the sources guard all uses with nonemptiness). -/
def qmax : List ℚ → ℚ
  | [] => 0
  | x :: t => t.foldl max x

/-- Python `min` on a nonempty list (junk `0` on `[]`, never reached). -/
def qmin : List ℚ → ℚ
  | [] => 0
  | x :: t => t.foldl min x

theorem init_le_foldl_max (t : List ℚ) (a : ℚ) : a ≤ t.foldl max a := by
  induction t generalizing a with
  | nil => exact le_refl a
  | cons b t ih => exact le_trans (le_max_left a b) (ih (max a b))

theorem mem_le_foldl_max {x : ℚ} {t : List ℚ} (hx : x ∈ t) (a : ℚ) :
    x ≤ t.foldl max a := by
  induction t generalizing a with
  | nil => cases hx
  | cons b t ih =>
    rcases List.mem_cons.mp hx with h | h
    · subst h
      exact le_trans (le_max_right a x) (init_le_foldl_max t _)
    · exact ih h (max a b)

theorem le_qmax {x : ℚ} {l : List ℚ} (hx : x ∈ l) : x ≤ qmax l := by
  match l with
  | [] => cases hx
  | y :: t =>
    rcases List.mem_cons.mp hx with h | h
    · subst h
      exact init_le_foldl_max t x
    · exact mem_le_foldl_max h y

theorem foldl_min_le_init (t : List ℚ) (a : ℚ) : t.foldl min a ≤ a := by
  induction t generalizing a with
  | nil => exact le_refl a
  | cons b t ih => exact le_trans (ih (min a b)) (min_le_left a b)

theorem foldl_min_le_mem {x : ℚ} {t : List ℚ} (hx : x ∈ t) (a : ℚ) :
    t.foldl min a ≤ x := by
  induction t generalizing a with
  | nil => cases hx
  | cons b t ih =>
    rcases List.mem_cons.mp hx with h | h
    · subst h
      exact le_trans (foldl_min_le_init t _) (min_le_right a x)
    · exact ih h (min a b)

theorem qmin_le {x : ℚ} {l : List ℚ} (hx : x ∈ l) : qmin l ≤ x := by
  match l with
  | [] => cases hx
  | y :: t =>
    rcases List.mem_cons.mp hx with h | h
    · subst h
      exact foldl_min_le_init t x
    · exact foldl_min_le_mem h y

/-! ## evaluate.py -/

/-- evaluate.split_train_val: sort by date, keep everything as training when
the series has at most `val_days` rows, else the last `val_days` sorted rows
are validation. A series row is a (date, value) pair with dates as naturals. -/
def split_train_val (series : List (ℕ × ℚ)) (val_days : ℕ) :
    List (ℕ × ℚ) × List (ℕ × ℚ) :=
  let s := series.mergeSort (fun a b => decide (a.1 ≤ b.1))
  if s.length ≤ val_days then (s, [])
  else (s.take (s.length - val_days), s.drop (s.length - val_days))

/-- Result of evaluate.evaluate_predictions; `none` models NaN, and the
root mean squared error of the source is `Real.sqrt` of `mse`. -/
structure EvalResult where
  mae : Option ℚ
  mse : Option ℚ
  deriving DecidableEq, Repr

/-- The mask `~(isnan(a) | isnan(p))` applied to one aligned pair: keep it
only when neither side is NaN. -/
def pairOpt : Option ℚ × Option ℚ → Option (ℚ × ℚ)
  | (some x, some y) => some (x, y)
  | _ => none

/-- The pairs surviving evaluate_predictions' alignment: truncate both inputs
to the common length, then drop any pair where either side is NaN. -/
def validPairs (actual predicted : List (Option ℚ)) : List (ℚ × ℚ) :=
  let n := min actual.length predicted.length
  ((actual.take n).zip (predicted.take n)).filterMap pairOpt

/-- evaluate.evaluate_predictions: truncate to the common length, drop NaN
pairs, then MAE and (squared) RMSE; both NaN when no valid pair remains. -/
def evaluate_predictions (actual predicted : List (Option ℚ)) : EvalResult :=
  let pairs := validPairs actual predicted
  if pairs = [] then ⟨none, none⟩
  else
    ⟨some (qmean (pairs.map fun q => |q.1 - q.2|)),
     some (qmean (pairs.map fun q => (q.1 - q.2) ^ 2))⟩

/-! ## recommend.py -/

/-- One product's entry of `forecast_results` as consumed by
recommend.build_recommendations: the historical `y` column of the series and
the `predicted_sales`/`yhat` column of the horizon forecast frame; `none`
models a missing key. The 90-day frame is carried along but unused by the
30-day ranking. -/
structure FcData where
  series : Option (List ℚ)
  forecast30 : Option (List ℚ)
  forecast90 : Option (List ℚ)
  deriving DecidableEq, Repr

/-- A row of build_recommendations' internal `rows` list before
normalisation, keeping the un-rounded aggregates that feed the
`pred_sales_list` / `growth_list` accumulators. -/
structure RawRow (α : Type) where
  product : α
  ptotal : ℚ
  growth : ℚ
  deriving DecidableEq, Repr

/-- A row after the normalisation loop, with the internal `sales_norm` and
`growth_norm` values exposed alongside the published fields. -/
structure ScoredRow (α : Type) where
  product : α
  predicted_sales : ℚ
  growth_rate : ℚ
  sales_norm : ℚ
  growth_norm : ℚ
  score : ℚ
  deriving DecidableEq, Repr

/-- The published recommendation record (the four keys the sources return). -/
structure RecOut (α : Type) where
  product : α
  predicted_sales : ℚ
  growth_rate : ℚ
  recommendation_score : ℚ
  deriving DecidableEq, Repr

def ScoredRow.toOut {α : Type} (r : ScoredRow α) : RecOut α :=
  ⟨r.product, r.predicted_sales, r.growth_rate, r.score⟩

/-- The `recommendation_score` line: recommend.py rounds to 4 places and then
clamps to `[0,1]`; inference.py clamps first and then rounds. The flag
selects the inference.py order. -/
def scoreFormula (roundAfterClamp : Bool) (sn gn : ℚ) : ℚ :=
  if roundAfterClamp then pyRound 4 (min 1 (max 0 (1/2 * sn + 1/2 * gn)))
  else min 1 (max 0 (pyRound 4 (1/2 * sn + 1/2 * gn)))

/-- Body of the normalisation loop for one row, given the shared divisor
`pm` and the growth extremes `gmin`/`gmax` of the whole batch. Note the
sources put the 2-decimal-rounded copies into the row, so `sales_norm`
divides the rounded total by the un-rounded maximum, and `growth_norm`
scales the rounded growth over the un-rounded extremes. -/
def scoreRow {α : Type} (roundAfterClamp : Bool) (pm gmin gmax : ℚ)
    (r : RawRow α) : ScoredRow α :=
  let sn := pyRound 2 r.ptotal / pm
  let g := pyRound 2 r.growth
  let gn := if gmin < gmax then (g - gmin) / (gmax - gmin) else 1/2
  ⟨r.product, pyRound 2 r.ptotal, g, sn, gn, scoreFormula roundAfterClamp sn gn⟩

/-- The normalisation loop of recommend.build_recommendations (lines 71-83)
and of inference.get_recommendations_from_models (lines 117-129): the
divisor is `max(pred_sales_list) or 1` (Python `or`: substitute 1 exactly
when the maximum is zero), and the growth extremes come from the un-rounded
`growth_list`. Only evaluated on a nonempty batch in the sources. -/
def scoreRows {α : Type} (roundAfterClamp : Bool) (raw : List (RawRow α)) :
    List (ScoredRow α) :=
  let pm0 := qmax (raw.map (·.ptotal))
  let pm := if pm0 = 0 then 1 else pm0
  let gmin := qmin (raw.map (·.growth))
  let gmax := qmax (raw.map (·.growth))
  raw.map (scoreRow roundAfterClamp pm gmin gmax)

/-- Row-building phase of build_recommendations (lines 44-66): skip a product
whose series or horizon forecast is missing or empty, else aggregate the
forecast and compute the growth rate from the two means. -/
def recRowsRaw (input : List (String × FcData)) : List (RawRow String) :=
  input.filterMap fun pd =>
    match pd.2.series, pd.2.forecast30 with
    | some s, some f =>
      if s = [] ∨ f = [] then none
      else some ⟨pd.1, f.sum, growthRate (qmean s) (qmean f)⟩
    | _, _ => none

/-- `rows.sort(key=..., reverse=True)`: stable sort, descending by score. -/
def sortRowsDesc {α : Type} (rows : List (ScoredRow α)) : List (ScoredRow α) :=
  rows.mergeSort (fun a b => decide (b.score ≤ a.score))

/-- recommend.build_recommendations: build rows, return `[]` when none
survive, else normalise, score, sort descending and publish. -/
def build_recommendations (input : List (String × FcData)) :
    List (RecOut String) :=
  let raw := recRowsRaw input
  if raw = [] then []
  else (sortRowsDesc (scoreRows false raw)).map ScoredRow.toOut

/-! ## inference.py -/

/-- Product names on the inference side, as character lists so the
filename round trip can be analysed characterwise. -/
abbrev PName := List Char

/-- A fitted model as inference.py uses one: `make_future_dataframe` plus
`predict` for a horizon yields the `yhat` column, or `none` when predict
raises. -/
abbrev PModel := ℕ → Option (List ℚ)

/-- One product's meta.json record; only `past_avg` is consumed by the
inference path (`last_ds` is never read back), and `info.get("past_avg", 0)`
makes the field optional with default 0. -/
structure MetaRec where
  pastAvg : Option ℚ
  deriving DecidableEq, Repr

/-- The characters `re.sub(r'[<>:"/\\|?*]', "_", name)` replaces. -/
def badChar (c : Char) : Bool :=
  c ∈ ['<', '>', ':', '\"', '/', '\\', '|', '?', '*']

/-- `_safe_fname` (train.py lines 70-72 and inference.py lines 18-19):
replace filesystem-unsafe characters by an underscore and truncate to 200
characters. -/
def safe_fname (s : PName) : PName :=
  (s.map fun c => if badChar c then '_' else c).take 200

/-- inference.load_models' key derivation `path.stem.replace("_", " ")`. -/
def stemKey (s : PName) : PName := s.map fun c => if c = '_' then ' ' else c

/-- One `.pkl` file in the models directory: its stem and its unpickled
content (`none` when unpickling raises, i.e. a corrupt artifact). -/
structure PklFile where
  stem : PName
  content : Option PModel

/-- The models directory: its `.pkl` files in glob order, and the meta.json
file (`none` = absent; `some none` = present but unparsable; `some (some m)`
= parsed map). -/
structure DirState where
  pkls : List PklFile
  metaFile : Option (Option (List (PName × MetaRec)))

/-- Loop body of inference.load_models for one `.pkl` file: the meta default
is inserted before the unpickling attempt, so even a corrupt artifact gets
its regenerated meta entry, while only a readable one enters the model
dict. -/
def loadStep (acc : List (PName × PModel) × List (PName × MetaRec))
    (f : PklFile) :
    List (PName × PModel) × List (PName × MetaRec) :=
  let key := stemKey f.stem
  let meta1 := if (lookupA acc.2 key).isSome then acc.2
               else acc.2 ++ [(key, ⟨some 100⟩)]
  match f.content with
  | some m => (dinsert acc.1 key m, meta1)
  | none => (acc.1, meta1)

/-- inference.load_models: empty store when the directory is absent; meta
starts from meta.json when present and parsable, else empty; then each
`.pkl` file is keyed by its de-underscored stem, gets a placeholder meta
record `past_avg = 100` when its key is unknown, and is loaded unless
unpickling fails. -/
def load_models (dir : Option DirState) :
    List (PName × PModel) × List (PName × MetaRec) :=
  match dir with
  | none => ([], [])
  | some d =>
    let meta0 := match d.metaFile with
      | some (some m) => m
      | _ => []
    d.pkls.foldl loadStep ([], meta0)

/-- Row-building phase of inference.get_recommendations_from_models (lines
79-112): skip a product with no meta record, a raising predict, or an empty
forecast tail; else aggregate the last `horizon_days` predictions and apply
the inline growth-rate guard. -/
def infRows (models : List (PName × PModel)) (meta : List (PName × MetaRec))
    (horizon_days : ℕ) : List (RawRow PName) :=
  models.filterMap fun pm =>
    match lookupA meta pm.1 with
    | none => none
    | some info =>
      match pm.2 horizon_days with
      | none => none
      | some pred =>
        let tail := pred.drop (pred.length - horizon_days)
        if tail = [] then none
        else some ⟨pm.1, tail.sum,
                   growthRate (info.pastAvg.getD 0) (qmean tail)⟩

/-- inference.get_recommendations_from_models: empty output when either the
model dict or the meta dict is empty, else build rows, bail out to `[]` when
none survive, normalise, score (clamp before round), sort and publish. -/
def get_recommendations_from_models (models : List (PName × PModel))
    (meta : List (PName × MetaRec)) (horizon_days : ℕ) : List (RecOut PName) :=
  if models.isEmpty || meta.isEmpty then []
  else
    let raw := infRows models meta horizon_days
    if raw.isEmpty then []
    else (sortRowsDesc (scoreRows true raw)).map ScoredRow.toOut

/-! ## train.py -/

/-- A per-product metrics record: `mae`/`rmse` with `none` as NaN, plus the
`error` key the exception handler attaches. -/
structure Metrics where
  mae : Option ℚ
  rmse : Option ℚ
  error : Option String
  deriving DecidableEq, Repr

/-- The triple `_train_and_evaluate_one_product` returns: whether the model
is not `None`, the metrics dict, and the forecast-data dict (`none` models
the empty dict `{}` of the two skip paths). Training and Prophet fitting are
external effects, so a pipeline run is parameterised by this per-product
outcome, with `Except.error` modelling a raised exception. -/
structure TrainRes where
  model : Bool
  metrics : Metrics
  data : Option FcData

/-- The preprocessed frame as the pipeline entry points consume it: its
emptiness flag and the sorted product list `get_products` extracts. -/
structure DFrame where
  empty : Bool
  products : List String

/-- The `max_products` slice shared by the entry points: take the first `m`
products only when the option is given and positive. -/
def applyMax (ps : List String) (mp : Option ℕ) : List String :=
  match mp with
  | some m => if 0 < m then ps.take m else ps
  | none => ps

/-- What run_pipeline returns (the `forecast_30`/`forecast_90` frames are
not part of the returned dict; file writes are side effects outside the
embedding). `message` is present exactly on the two early-exit paths. -/
structure PipelineResult where
  recommendations : List (RecOut String)
  metrics : List (String × Metrics)
  message : Option String
  products_trained : Option ℕ

/-- Loop body of run_pipeline for one product over the pair
(forecast_results, metrics): an exception yields a NaN metrics record with
the error string attached; a successful outcome enters both dicts only when
the model is present and the data dict nonempty. -/
def pipeStep (step : String → Except String TrainRes)
    (acc : List (String × FcData) × List (String × Metrics)) (p : String) :
    List (String × FcData) × List (String × Metrics) :=
  match step p with
  | .error e => (acc.1, dinsert acc.2 p ⟨none, none, some e⟩)
  | .ok r =>
    match r.data with
    | some d => if r.model then (dinsert acc.1 p d, dinsert acc.2 p r.metrics)
                else acc
    | none => acc

/-- The metrics entry a single product's outcome produces, if any. -/
def msOutcome (o : Except String TrainRes) : Option Metrics :=
  match o with
  | .error e => some ⟨none, none, some e⟩
  | .ok r =>
    match r.data with
    | some _ => if r.model then some r.metrics else none
    | none => none

/-- train.run_pipeline: early "no data" / "no products" results, else the
per-product loop followed by ranking. -/
def run_pipeline (df : DFrame) (step : String → Except String TrainRes)
    (mp : Option ℕ) : PipelineResult :=
  if df.empty then ⟨[], [], some "No data after preprocessing.", none⟩
  else
    let products := applyMax df.products mp
    if products.isEmpty then ⟨[], [], some "No products found.", none⟩
    else
      let st := products.foldl (pipeStep step) ([], [])
      ⟨build_recommendations st.1, st.2, none, some st.1.length⟩

/-- train.run_training_only: raises (`Except.error`) on "no data" and "no
products"; otherwise trains each product inside a try/except that only
warns, accumulating a meta entry per successfully trained product (the
per-product work is the oracle `step`: `Except.error` = exception caught and
warned, `.ok none` = series too short and skipped, `.ok (some m)` = trained
with meta entry `m`). -/
def run_training_only (df : DFrame)
    (step : String → Except String (Option MetaRec)) (mp : Option ℕ) :
    Except String (List (String × MetaRec)) :=
  if df.empty then .error "No data after preprocessing."
  else
    let products := applyMax df.products mp
    if products.isEmpty then .error "No products found."
    else .ok (products.foldl (fun meta p =>
      match step p with
      | .error _ => meta
      | .ok none => meta
      | .ok (some m) => dinsert meta p m) [])

/-! ## Claims -/

/-- Claim C9: for every past and future series, growth_rate_percent is 0
whenever the baseline (past) average is nonpositive and equals
`(future_avg - past_avg) / past_avg * 100` otherwise; in particular with
past average 0 the result is 0.0 regardless of the future average, so no
division by zero occurs. Stated both for the inline guard of
inference.get_recommendations_from_models (`growthRate`) and for
recommend.compute_growth_rate on series with defined (non-NaN) means. -/
theorem C9_growth_rate_guard :
    (∀ pa fa : ℚ,
      (pa ≤ 0 → growthRate pa fa = 0) ∧
      (0 < pa → growthRate pa fa = (fa - pa) / pa * 100)) ∧
    (∀ fa : ℚ, growthRate 0 fa = 0) ∧
    (∀ (past future : List ℚ) (pa : ℚ), meanOpt past = some pa →
      ((pa ≤ 0 → compute_growth_rate past future = some 0) ∧
       (∀ fa : ℚ, 0 < pa → meanOpt future = some fa →
         compute_growth_rate past future = some ((fa - pa) / pa * 100)))) ∧
    (∀ past future : List ℚ, meanOpt past = some 0 →
      compute_growth_rate past future = some 0) := by
  refine ⟨fun pa fa => ⟨fun h => ?_, fun h => ?_⟩, fun fa => ?_,
    fun past future pa hpa => ⟨fun h => ?_, fun fa h hfa => ?_⟩,
    fun past future hpa => ?_⟩
  · simp [growthRate, h]
  · simp [growthRate, not_le.mpr h]
  · simp [growthRate]
  · simp [compute_growth_rate, hpa, h]
  · simp [compute_growth_rate, hpa, hfa, not_le.mpr h]
  · simp [compute_growth_rate, hpa]

/-- Witness for C9 at concrete inputs. -/
theorem C9_growth_rate_guard_witness :
    growthRate 0 7 = 0 ∧ compute_growth_rate [0] [5] = some 0 := by
  constructor
  · exact C9_growth_rate_guard.2.1 7
  · exact C9_growth_rate_guard.2.2.2 [0] [5]
      (by norm_num [meanOpt, qmean])

/-- Claim C6: split_train_val with series length L and window val_days
returns an empty validation set and the entire series (as its date-sorted
copy, a permutation of the input) as training when `L ≤ val_days`; otherwise
the validation set is exactly the last val_days points of the sorted series,
so for `L = val_days + 5` the validation set has exactly val_days points and
the training set has 5. -/
theorem C6_split_train_val (series : List (ℕ × ℚ)) (val_days : ℕ) :
    (series.length ≤ val_days →
      (split_train_val series val_days).2 = [] ∧
      (split_train_val series val_days).1.Perm series) ∧
    (val_days < series.length →
      (split_train_val series val_days).2 =
        (series.mergeSort (fun a b => decide (a.1 ≤ b.1))).drop
          (series.length - val_days) ∧
      (split_train_val series val_days).2.length = val_days) ∧
    (series.length = val_days + 5 →
      (split_train_val series val_days).2.length = val_days ∧
      (split_train_val series val_days).1.length = 5) := by
  have hlen : (series.mergeSort (fun a b => decide (a.1 ≤ b.1))).length =
      series.length := List.length_mergeSort series
  refine ⟨fun h => ?_, fun h => ?_, fun h => ?_⟩
  · rw [split_train_val, if_pos (by rw [hlen]; exact h)]
    exact ⟨rfl, List.mergeSort_perm series _⟩
  · rw [split_train_val, if_neg (by rw [hlen]; omega)]
    refine ⟨by rw [hlen], ?_⟩
    simp only [List.length_drop, hlen]
    omega
  · have h' : val_days < series.length := by omega
    rw [split_train_val, if_neg (by rw [hlen]; omega)]
    constructor
    · simp only [List.length_drop, hlen]
      omega
    · simp only [List.length_take, hlen]
      omega

/-- Witness for C6 at a concrete five-point series with a two-day window. -/
theorem C6_split_train_val_witness :
    (split_train_val [(1, 5), (2, 6), (3, 7)] 2).2 =
      ([(1, (5:ℚ)), (2, 6), (3, 7)].mergeSort
        (fun a b => decide (a.1 ≤ b.1))).drop 1 ∧
    (split_train_val [(1, 5), (2, 6), (3, 7)] 2).2.length = 2 :=
  (C6_split_train_val [(1, 5), (2, 6), (3, 7)] 2).2.1 (by norm_num)

/-- Claim C7: evaluate_predictions first truncates the two sequences to the
shorter length, removes NaN pairs pairwise, then returns the mean absolute
difference and (as `mse`, whose square root is the returned RMSE) the mean
squared difference; when no valid pair remains both metrics are NaN, and on
`[10,20]` against `[10,20]` both are exactly 0 (`Real.sqrt 0 = 0`). -/
theorem C7_evaluate_predictions :
    (∀ actual predicted : List (Option ℚ),
      evaluate_predictions actual predicted =
        evaluate_predictions
          (actual.take (min actual.length predicted.length))
          (predicted.take (min actual.length predicted.length)) ∧
      (validPairs actual predicted = [] →
        evaluate_predictions actual predicted = ⟨none, none⟩) ∧
      (validPairs actual predicted ≠ [] →
        (evaluate_predictions actual predicted).mae =
          some (qmean ((validPairs actual predicted).map
            fun q => |q.1 - q.2|)) ∧
        (evaluate_predictions actual predicted).mse =
          some (qmean ((validPairs actual predicted).map
            fun q => (q.1 - q.2) ^ 2)))) ∧
    evaluate_predictions [] [] = ⟨none, none⟩ ∧
    evaluate_predictions [some 10, some 20] [some 10, some 20] =
      ⟨some 0, some 0⟩ ∧
    Real.sqrt ((0 : ℚ) : ℝ) = 0 := by
  refine ⟨fun actual predicted => ⟨?_, fun h => ?_, fun h => ?_⟩, ?_, ?_, ?_⟩
  · have hkey : validPairs
        (actual.take (min actual.length predicted.length))
        (predicted.take (min actual.length predicted.length)) =
        validPairs actual predicted := by
      simp [validPairs, List.length_take, List.take_take]
    simp [evaluate_predictions, hkey]
  · simp [evaluate_predictions, h]
  · simp [evaluate_predictions, h]
  · rfl
  · have hvp : validPairs [some (10:ℚ), some 20] [some 10, some 20] =
        [(10, 10), (20, 20)] := by
      simp [validPairs, pairOpt, List.filterMap_cons]
    simp only [evaluate_predictions, hvp]
    rw [if_neg (by simp)]
    norm_num [qmean]
  · simp

/-- Witness for C7's hypothesis-bearing conjunct at mismatched lengths with
a NaN pair: only the pair (3, 4) survives. -/
theorem C7_evaluate_predictions_witness :
    (evaluate_predictions [some 3, none, some 9] [some 4, some 5]).mae =
      some (qmean ((validPairs [some 3, none, some 9] [some 4, some 5]).map
        fun q => |q.1 - q.2|)) ∧
    (evaluate_predictions [some 3, none, some 9] [some 4, some 5]).mse =
      some (qmean ((validPairs [some 3, none, some 9] [some 4, some 5]).map
        fun q => (q.1 - q.2) ^ 2)) :=
  ((C7_evaluate_predictions.1 [some 3, none, some 9] [some 4, some 5]).2.2
    (by simp [validPairs, pairOpt, List.filterMap_cons]))

/-- Claim C5: when preprocessing yields no data or no products, run_pipeline
returns an explicit "no data" / "no products" result with empty
recommendations and metrics rather than raising, whereas run_training_only
raises (models as `Except.error`) in the same situations. -/
theorem C5_no_data_paths (df : DFrame)
    (stepP : String → Except String TrainRes)
    (stepT : String → Except String (Option MetaRec)) (mp : Option ℕ) :
    (df.empty = true →
      run_pipeline df stepP mp =
        ⟨[], [], some "No data after preprocessing.", none⟩ ∧
      run_training_only df stepT mp =
        .error "No data after preprocessing.") ∧
    (df.empty = false → applyMax df.products mp = [] →
      run_pipeline df stepP mp = ⟨[], [], some "No products found.", none⟩ ∧
      run_training_only df stepT mp = .error "No products found.") := by
  refine ⟨fun h => ?_, fun h hprod => ?_⟩
  · constructor
    · simp [run_pipeline, h]
    · simp [run_training_only, h]
  · constructor
    · simp [run_pipeline, h, hprod]
    · simp [run_training_only, h, hprod]

/-- Witness for C5: an empty frame and a nonempty frame whose product list
is emptied by nothing (it is empty already). -/
theorem C5_no_data_paths_witness :
    (run_pipeline ⟨true, []⟩ (fun _ => .error "x") none =
      ⟨[], [], some "No data after preprocessing.", none⟩ ∧
     run_training_only ⟨true, []⟩ (fun _ => .error "x") none =
      .error "No data after preprocessing.") ∧
    (run_pipeline ⟨false, []⟩ (fun _ => .error "x") none =
      ⟨[], [], some "No products found.", none⟩ ∧
     run_training_only ⟨false, []⟩ (fun _ => .error "x") none =
      .error "No products found.") := by
  constructor
  · exact (C5_no_data_paths ⟨true, []⟩ (fun _ => .error "x")
      (fun _ => .error "x") none).1 rfl
  · exact (C5_no_data_paths ⟨false, []⟩ (fun _ => .error "x")
      (fun _ => .error "x") none).2 rfl rfl

theorem scoreFormula_mem_unit (b : Bool) (sn gn : ℚ) :
    0 ≤ scoreFormula b sn gn ∧ scoreFormula b sn gn ≤ 1 := by
  cases b with
  | false =>
    refine ⟨le_min (by norm_num) (le_max_left 0 _), min_le_left 1 _⟩
  | true =>
    exact pyRound4_mem_unit
      (le_min (by norm_num) (le_max_left 0 _)) (min_le_left 1 _)

theorem sorted_sortRowsDesc {α : Type} (rows : List (ScoredRow α)) :
    (sortRowsDesc rows).Pairwise (fun a b => b.score ≤ a.score) := by
  have htrans : ∀ (a b c : ScoredRow α),
      (fun a b => decide (b.score ≤ a.score)) a b = true →
      (fun a b => decide (b.score ≤ a.score)) b c = true →
      (fun a b => decide (b.score ≤ a.score)) a c = true := by
    intro a b c hab hbc
    exact decide_eq_true
      (le_trans (of_decide_eq_true hbc) (of_decide_eq_true hab))
  have htotal : ∀ (a b : ScoredRow α),
      ((fun a b => decide (b.score ≤ a.score)) a b ||
       (fun a b => decide (b.score ≤ a.score)) b a) = true := by
    intro a b
    rcases le_total b.score a.score with h | h
    · simp [h]
    · simp [h]
  exact (List.sorted_mergeSort htrans htotal rows).imp
    (fun h => of_decide_eq_true h)

theorem mem_sortRowsDesc {α : Type} {r : ScoredRow α}
    {rows : List (ScoredRow α)} (h : r ∈ sortRowsDesc rows) : r ∈ rows :=
  (List.mergeSort_perm rows _).mem_iff.mp h

/-- Range of the published scores of a sorted, projected batch. -/
theorem publish_score_unit {α : Type} {b : Bool} {raw : List (RawRow α)}
    {r : RecOut α}
    (hr : r ∈ (sortRowsDesc (scoreRows b raw)).map ScoredRow.toOut) :
    0 ≤ r.recommendation_score ∧ r.recommendation_score ≤ 1 := by
  obtain ⟨s, hs, rfl⟩ := List.mem_map.mp hr
  have hs' : s ∈ scoreRows b raw := mem_sortRowsDesc hs
  simp only [scoreRows] at hs'
  obtain ⟨rr, _, rfl⟩ := List.mem_map.mp hs'
  exact scoreFormula_mem_unit b _ _

theorem publish_sorted {α : Type} (b : Bool) (raw : List (RawRow α)) :
    ((sortRowsDesc (scoreRows b raw)).map ScoredRow.toOut).Pairwise
      (fun a b => b.recommendation_score ≤ a.recommendation_score) :=
  List.pairwise_map.mpr (sorted_sortRowsDesc (scoreRows b raw))

/-- Claim C2: for every input to build_recommendations and to
get_recommendations_from_models, every recommendation_score of the returned
list lies in [0,1], and the returned list is sorted non-increasing by
recommendation_score. -/
theorem C2_scores_unit_sorted (input : List (String × FcData))
    (models : List (PName × PModel)) (meta : List (PName × MetaRec))
    (h : ℕ) :
    (∀ r ∈ build_recommendations input,
      0 ≤ r.recommendation_score ∧ r.recommendation_score ≤ 1) ∧
    (build_recommendations input).Pairwise
      (fun a b => b.recommendation_score ≤ a.recommendation_score) ∧
    (∀ r ∈ get_recommendations_from_models models meta h,
      0 ≤ r.recommendation_score ∧ r.recommendation_score ≤ 1) ∧
    (get_recommendations_from_models models meta h).Pairwise
      (fun a b => b.recommendation_score ≤ a.recommendation_score) := by
  refine ⟨?_, ?_, ?_, ?_⟩
  · intro r hr
    unfold build_recommendations at hr
    dsimp only at hr
    split at hr
    · cases hr
    · exact publish_score_unit hr
  · unfold build_recommendations
    dsimp only
    split
    · exact List.Pairwise.nil
    · exact publish_sorted false _
  · intro r hr
    unfold get_recommendations_from_models at hr
    dsimp only at hr
    split at hr
    · cases hr
    · split at hr
      · cases hr
      · exact publish_score_unit hr
  · unfold get_recommendations_from_models
    dsimp only
    split
    · exact List.Pairwise.nil
    · split
      · exact List.Pairwise.nil
      · exact publish_sorted true _

/-- Concrete run of build_recommendations on one product with series `[1]`
and 30-day forecast `[2]`: growth 100%, sales_norm 1, growth_norm 1/2,
score `round4(0.75) = 0.75`. -/
theorem build_eval_example :
    build_recommendations [("A", ⟨some [1], some [2], none⟩)] =
      [⟨"A", 2, 100, 3/4⟩] := by
  have h2 : pyRound 2 (2:ℚ) = 2 := @pyRound_eq_self 2 2 200 (by norm_num)
  have h100 : pyRound 2 (100:ℚ) = 100 :=
    @pyRound_eq_self 2 100 10000 (by norm_num)
  have h34 : pyRound 4 ((3:ℚ)/4) = 3/4 :=
    @pyRound_eq_self 4 (3/4) 7500 (by norm_num)
  have hraw : recRowsRaw [("A", ⟨some [1], some [2], none⟩)] =
      [⟨"A", 2, 100⟩] := by
    simp [recRowsRaw, List.filterMap_cons, growthRate, qmean]
    norm_num
  simp only [build_recommendations, hraw]
  rw [if_neg (by simp)]
  simp only [scoreRows, List.map_cons, List.map_nil, qmax, qmin, List.foldl]
  norm_num [scoreRow, scoreFormula, h2, h100, h34, sortRowsDesc,
    List.mergeSort_singleton, ScoredRow.toOut]

/-- Witness for C2: the single published row of `build_eval_example` has its
score inside `[0,1]`. -/
theorem C2_scores_unit_sorted_witness :
    0 ≤ ((⟨"A", 2, 100, 3/4⟩ : RecOut String)).recommendation_score ∧
    ((⟨"A", 2, 100, 3/4⟩ : RecOut String)).recommendation_score ≤ 1 :=
  (C2_scores_unit_sorted [("A", ⟨some [1], some [2], none⟩)] [] [] 0).1
    ⟨"A", 2, 100, 3/4⟩
    (by rw [build_eval_example]; exact List.mem_singleton.mpr rfl)

/-- Counterexample to claim C3 as stated: a single ranked product with
un-rounded predicted_total `1/2`. The claim's formula
`predicted_total / max(maximum predicted_total, 1)` gives `1/2`, but the
code divides by `max(...) or 1`, which substitutes 1 only when the maximum
is exactly zero, so the computed sales_norm is `(1/2) / (1/2) = 1`. -/
theorem C3_salesnorm_counterexample :
    ((scoreRows false [⟨"A", 1/2, -50⟩]).map fun r => r.sales_norm) = [1] ∧
    ((1:ℚ)/2) / max (qmax [(1:ℚ)/2]) 1 = 1/2 ∧
    (1 : ℚ) ≠ 1/2 := by
  have hhalf : pyRound 2 ((1:ℚ)/2) = 1/2 :=
    @pyRound_eq_self 2 (1/2) 50 (by norm_num)
  refine ⟨?_, ?_, by norm_num⟩
  · simp only [scoreRows, List.map_cons, List.map_nil, qmax, qmin,
      List.foldl, scoreRow]
    norm_num [hhalf]
  · norm_num [qmax]

/-- Claim C3, amended to what the sources compute: each ranked product's
sales_norm is its 2-decimal-rounded predicted_total divided by `pm`, where
`pm` is the maximum un-rounded predicted_total unless that maximum is
exactly zero, in which case `pm = 1` (Python's `max(...) or 1`); and when
every predicted_total is invariant under 2-decimal rounding and the maximum
is positive, each product attaining the maximum has sales_norm exactly 1.0
and each product strictly below it has sales_norm < 1.0. -/
theorem C3_salesnorm_amended {α : Type} (b : Bool) (raw : List (RawRow α))
    (m pm : ℚ) (hm : m = qmax (raw.map fun r => r.ptotal))
    (hpm : pm = if m = 0 then 1 else m) :
    ((scoreRows b raw).map fun r => r.sales_norm) =
      (raw.map fun r => pyRound 2 r.ptotal / pm) ∧
    ((∀ r ∈ raw, pyRound 2 r.ptotal = r.ptotal) → 0 < m →
      ∀ r ∈ raw,
        (r.ptotal = m → pyRound 2 r.ptotal / pm = 1) ∧
        (r.ptotal < m → pyRound 2 r.ptotal / pm < 1)) := by
  subst hm hpm
  constructor
  · simp [scoreRows, scoreRow, List.map_map]
  · intro hinv hpos r hr
    have hne : qmax (raw.map fun r => r.ptotal) ≠ 0 := ne_of_gt hpos
    rw [if_neg hne]
    constructor
    · intro heq
      rw [hinv r hr, heq]
      exact div_self hne
    · intro hlt
      rw [hinv r hr, div_lt_one hpos]
      exact hlt

/-- Witness for the amended C3 at two products with totals 2 and 1. -/
theorem C3_salesnorm_amended_witness :
    ((scoreRows false [(⟨"A", 2, 100⟩ : RawRow String), ⟨"B", 1, 100⟩]).map
        fun r => r.sales_norm) =
      ([(⟨"A", 2, 100⟩ : RawRow String), ⟨"B", 1, 100⟩].map
        fun r => pyRound 2 r.ptotal / 2) ∧
    (∀ r ∈ [(⟨"A", 2, 100⟩ : RawRow String), ⟨"B", 1, 100⟩],
      (r.ptotal = 2 → pyRound 2 r.ptotal / 2 = 1) ∧
      (r.ptotal < 2 → pyRound 2 r.ptotal / 2 < 1)) := by
  have h := C3_salesnorm_amended false
    [(⟨"A", 2, 100⟩ : RawRow String), ⟨"B", 1, 100⟩] 2 2
    (by norm_num [qmax, List.foldl]) (by norm_num)
  refine ⟨h.1, h.2 ?_ (by norm_num)⟩
  intro r hr
  rcases List.mem_cons.mp hr with rfl | hr
  · exact @pyRound_eq_self 2 2 200 (by norm_num)
  · rcases List.mem_cons.mp hr with rfl | hr
    · exact @pyRound_eq_self 2 1 100 (by norm_num)
    · cases hr

/-- Counterexample to claim C8 as stated: two ranked products with
un-rounded growth rates `1/1000` and `10`. Linear min-max scaling of
growth_rate_percent would give the first product
`(1/1000 - 1/1000) / (10 - 1/1000) = 0`, but the code scales the 2-decimal
rounded copy stored in the row (`round2(1/1000) = 0`) over the un-rounded
extremes, yielding `-1/9999`. -/
theorem C8_growthnorm_counterexample :
    ((scoreRows false [⟨"A", 100, 1/1000⟩, ⟨"B", 200, 10⟩]).map
        fun r => r.growth_norm) = [-1/9999, 1] ∧
    ((1:ℚ)/1000 - qmin [(1:ℚ)/1000, 10]) /
      (qmax [(1:ℚ)/1000, 10] - qmin [(1:ℚ)/1000, 10]) = 0 ∧
    (-1/9999 : ℚ) ≠ 0 := by
  have hsmall : pyRound 2 ((1:ℚ)/1000) = 0 := by
    unfold pyRound
    have hf : ⌊(1:ℚ)/1000 * 10 ^ 2⌋ = 0 := by norm_num [Int.floor_eq_iff]
    rw [rhe_of_lt_half (by rw [hf]; norm_num)]
    rw [hf]
    norm_num
  have hten : pyRound 2 (10:ℚ) = 10 := @pyRound_eq_self 2 10 1000 (by norm_num)
  refine ⟨?_, ?_, by norm_num⟩
  · simp only [scoreRows, List.map_cons, List.map_nil, qmax, qmin,
      List.foldl, scoreRow]
    norm_num [hsmall, hten]
  · norm_num [qmax, qmin, List.foldl]

/-- Claim C8, amended to what the sources compute: when the maximum and
minimum un-rounded growth_rate_percent coincide (including the
single-product case), every product's growth_norm is 0.5 and every score is
the score formula applied to the product's own sales_norm with growth_norm
fixed at 0.5 (so scores are determined solely by sales_norm); otherwise each
product's growth_norm is its 2-decimal-rounded growth_rate_percent min-max
scaled over the un-rounded `[min, max]`. -/
theorem C8_growthnorm_amended {α : Type} (b : Bool) (raw : List (RawRow α))
    (gmin gmax : ℚ) (hgmin : gmin = qmin (raw.map fun r => r.growth))
    (hgmax : gmax = qmax (raw.map fun r => r.growth)) :
    (gmax = gmin →
      ((scoreRows b raw).map fun r => r.growth_norm) =
        raw.map (fun _ => 1/2) ∧
      ∀ r ∈ scoreRows b raw, r.score = scoreFormula b r.sales_norm (1/2)) ∧
    (gmin < gmax →
      ((scoreRows b raw).map fun r => r.growth_norm) =
        raw.map fun r => (pyRound 2 r.growth - gmin) / (gmax - gmin)) := by
  subst hgmin hgmax
  constructor
  · intro hdeg
    have hnlt : ¬ qmin (raw.map fun r => r.growth) <
        qmax (raw.map fun r => r.growth) := by
      rw [hdeg]
      exact lt_irrefl _
    constructor
    · simp only [scoreRows, List.map_map]
      exact List.map_congr_left fun r hr => by simp [scoreRow, hnlt]
    · intro r hr
      simp only [scoreRows] at hr
      obtain ⟨rr, _, rfl⟩ := List.mem_map.mp hr
      simp [scoreRow, hnlt]
  · intro hlt
    simp only [scoreRows, List.map_map]
    exact List.map_congr_left fun r hr => by simp [scoreRow, hlt]

/-- Witness for the amended C8, both branches: identical growths `[5, 5]`
give growth_norm 1/2 everywhere, and growths `[5, 7]` give the rounded
min-max scaling. -/
theorem C8_growthnorm_amended_witness :
    ((scoreRows false [(⟨"A", 1, 5⟩ : RawRow String), ⟨"B", 2, 5⟩]).map
        fun r => r.growth_norm) =
      [(⟨"A", (1:ℚ), 5⟩ : RawRow String), ⟨"B", 2, 5⟩].map (fun _ => 1/2) ∧
    ((scoreRows false [(⟨"A", 1, 5⟩ : RawRow String), ⟨"B", 2, 7⟩]).map
        fun r => r.growth_norm) =
      [(⟨"A", (1:ℚ), 5⟩ : RawRow String), ⟨"B", 2, 7⟩].map
        (fun r => (pyRound 2 r.growth - 5) / (7 - 5)) := by
  constructor
  · exact ((C8_growthnorm_amended false
      [(⟨"A", 1, 5⟩ : RawRow String), ⟨"B", 2, 5⟩] 5 5
      (by norm_num [qmin, List.foldl]) (by norm_num [qmax, List.foldl])).1
      rfl).1
  · exact (C8_growthnorm_amended false
      [(⟨"A", 1, 5⟩ : RawRow String), ⟨"B", 2, 7⟩] 5 7
      (by norm_num [qmin, List.foldl]) (by norm_num [qmax, List.foldl])).2
      (by norm_num)

theorem lookupA_pipeStep (step : String → Except String TrainRes)
    (acc : List (String × FcData) × List (String × Metrics)) (q p : String) :
    lookupA (pipeStep step acc q).2 p =
      if p = q ∧ (msOutcome (step q)).isSome then msOutcome (step q)
      else lookupA acc.2 p := by
  cases hstep : step q with
  | error e => simp [pipeStep, msOutcome, hstep, lookupA_dinsert]
  | ok r =>
    cases hdata : r.data with
    | some d =>
      by_cases hm : r.model
      · simp [pipeStep, msOutcome, hstep, hdata, hm, lookupA_dinsert]
      · simp [pipeStep, msOutcome, hstep, hdata, hm]
    | none => simp [pipeStep, msOutcome, hstep, hdata]

/-- Per-product characterisation of the metrics dict accumulated by
run_pipeline's loop: a product's entry depends only on that product's own
outcome, never on another product's. -/
theorem lookupA_pipeFold (step : String → Except String TrainRes)
    (ps : List String)
    (acc : List (String × FcData) × List (String × Metrics)) (p : String) :
    lookupA (ps.foldl (pipeStep step) acc).2 p =
      if p ∈ ps ∧ (msOutcome (step p)).isSome then msOutcome (step p)
      else lookupA acc.2 p := by
  induction ps generalizing acc with
  | nil => simp
  | cons q t ih =>
    rw [List.foldl_cons, ih]
    by_cases hq : p = q
    · subst hq
      by_cases hS : (msOutcome (step p)).isSome
      · by_cases ht : p ∈ t <;> simp [ht, hS, lookupA_pipeStep]
      · simp [hS, lookupA_pipeStep]
    · by_cases ht : p ∈ t <;> by_cases hS : (msOutcome (step p)).isSome <;>
        simp [List.mem_cons, ht, hS, lookupA_pipeStep, hq]

/-- Counterexample to claim C1 as stated: a product skipped for
insufficient data (the oracle mirrors `_train_and_evaluate_one_product`
returning `(None, NaN-metrics, {})`) is attempted but receives no metrics
entry at all, because run_pipeline records metrics only for successfully
trained products and for products whose training raised. -/
theorem C1_metrics_counterexample :
    "A" ∈ applyMax (DFrame.mk false ["A"]).products none ∧
    lookupA (run_pipeline ⟨false, ["A"]⟩
        (fun _ => .ok ⟨false, ⟨none, none, none⟩, none⟩) none).metrics "A" =
      none := by
  constructor
  · simp [applyMax]
  · rfl

/-- Claim C1, amended to what the source does: in run_pipeline each
product's metrics entry is a function of that product's own training
outcome alone (so no product's failure blocks any other); a product whose
training raised gets a NaN metrics record with the error string attached; a
successfully trained product gets its computed metrics; but a product
skipped for insufficient data gets no metrics entry at all. -/
theorem C1_metrics_isolation (df : DFrame)
    (step : String → Except String TrainRes) (mp : Option ℕ) (p : String)
    (hdf : df.empty = false)
    (hne : (applyMax df.products mp).isEmpty = false) :
    (lookupA (run_pipeline df step mp).metrics p =
      if p ∈ applyMax df.products mp ∧ (msOutcome (step p)).isSome
      then msOutcome (step p) else none) ∧
    (∀ e, step p = .error e → p ∈ applyMax df.products mp →
      lookupA (run_pipeline df step mp).metrics p =
        some ⟨none, none, some e⟩) ∧
    (∀ r, step p = .ok r → r.model = false →
      lookupA (run_pipeline df step mp).metrics p = none) := by
  have hmain : lookupA (run_pipeline df step mp).metrics p =
      if p ∈ applyMax df.products mp ∧ (msOutcome (step p)).isSome
      then msOutcome (step p) else none := by
    unfold run_pipeline
    rw [hdf]
    simp only [Bool.false_eq_true, if_false]
    rw [hne]
    simp only [Bool.false_eq_true, if_false]
    rw [lookupA_pipeFold]
    rfl
  refine ⟨hmain, fun e he hp => ?_, fun r hr hm => ?_⟩
  · rw [hmain, he]
    simp [msOutcome, hp]
  · rw [hmain, hr]
    have hnone : msOutcome (Except.ok r) = none := by
      cases hd : r.data <;> simp [msOutcome, hd, hm]
    simp [hnone]

/-- Witness for the amended C1: one product whose training raises "boom"
gets the error-annotated NaN record. -/
theorem C1_metrics_isolation_witness :
    lookupA (run_pipeline ⟨false, ["A"]⟩
        (fun _ => .error "boom") none).metrics "A" =
      some ⟨none, none, some "boom"⟩ :=
  (C1_metrics_isolation ⟨false, ["A"]⟩ (fun _ => .error "boom") none "A"
    rfl rfl).2.1 "boom" rfl (by simp [applyMax])

theorem loadStep_snd (acc : List (PName × PModel) × List (PName × MetaRec))
    (f : PklFile) :
    (loadStep acc f).2 =
      if (lookupA acc.2 (stemKey f.stem)).isSome then acc.2
      else acc.2 ++ [(stemKey f.stem, ⟨some 100⟩)] := by
  cases hf : f.content <;> simp [loadStep, hf]

/-- Characterisation of the meta dict after load_models' loop: an entry
present before the loop is untouched; a key derived from some discovered
artifact and absent before gets the placeholder record `past_avg = 100`. -/
theorem lookupA_loadFold (pkls : List PklFile)
    (acc : List (PName × PModel) × List (PName × MetaRec)) (k : PName) :
    lookupA (pkls.foldl loadStep acc).2 k =
      match lookupA acc.2 k with
      | some v => some v
      | none =>
        if k ∈ pkls.map (fun f => stemKey f.stem) then some ⟨some 100⟩
        else none := by
  induction pkls generalizing acc with
  | nil => cases h : lookupA acc.2 k <;> simp [h]
  | cons f t ih =>
    rw [List.foldl_cons, ih]
    by_cases hk : k = stemKey f.stem
    · subst hk
      cases hacc : lookupA acc.2 (stemKey f.stem) with
      | some v => simp [loadStep_snd, hacc]
      | none =>
        simp [loadStep_snd, hacc, lookupA_append, lookupA]
    · have hstep : lookupA (loadStep acc f).2 k = lookupA acc.2 k := by
        rw [loadStep_snd]
        split
        · rfl
        · rw [lookupA_append]
          cases h : lookupA acc.2 k <;> simp [h, lookupA, hk]
      rw [hstep]
      cases h : lookupA acc.2 k <;> simp [h, List.mem_cons, hk]

/-- Claim C4: load_models on a nonexistent directory returns an empty model
map and empty metadata; with the metadata file absent, each discovered
artifact's derived key gets a regenerated record with placeholder
`past_avg = 100`; a directory with one corrupt and one valid artifact
yields a model map containing exactly the valid one; and
get_recommendations_from_models on an empty model map returns `[]`. -/
theorem C4_load_models_tolerant :
    load_models none = ([], []) ∧
    (∀ d : DirState, d.metaFile = none → ∀ f ∈ d.pkls,
      lookupA (load_models (some d)).2 (stemKey f.stem) =
        some ⟨some 100⟩) ∧
    (∀ (s1 s2 : PName) (m : PModel)
      (mf : Option (Option (List (PName × MetaRec)))),
      (load_models (some ⟨[⟨s1, none⟩, ⟨s2, some m⟩], mf⟩)).1 =
        [(stemKey s2, m)]) ∧
    (∀ (meta : List (PName × MetaRec)) (h : ℕ),
      get_recommendations_from_models [] meta h = []) := by
  refine ⟨rfl, fun d hmf f hf => ?_, fun s1 s2 m mf => ?_, fun meta h => ?_⟩
  · have hload : load_models (some d) = d.pkls.foldl loadStep ([], []) := by
      unfold load_models
      dsimp only
      rw [hmf]
    rw [hload, lookupA_loadFold]
    simp only [lookupA]
    rw [if_pos (List.mem_map.mpr ⟨f, hf, rfl⟩)]
  · have hgen : ∀ m0 : List (PName × MetaRec),
        (List.foldl loadStep ([], m0) [⟨s1, none⟩, ⟨s2, some m⟩]).1 =
          [(stemKey s2, m)] := by
      intro m0
      simp [loadStep, dinsert]
    exact hgen _
  · simp [get_recommendations_from_models]

/-- Witness for C4: a directory holding one artifact and no meta.json
regenerates the placeholder record for that artifact's key. -/
theorem C4_load_models_tolerant_witness :
    lookupA (load_models (some ⟨[⟨['a'], some fun _ => none⟩], none⟩)).2
        (stemKey ['a']) = some ⟨some 100⟩ :=
  C4_load_models_tolerant.2.1 ⟨[⟨['a'], some fun _ => none⟩], none⟩ rfl
    ⟨['a'], some fun _ => none⟩ (List.mem_singleton.mpr rfl)

theorem map_eq_self_mem {l : List Char} {f : Char → Char}
    (h : l.map f = l) : ∀ c ∈ l, f c = c := by
  induction l with
  | nil => intro c hc; cases hc
  | cons a t ih =>
    rw [List.map_cons, List.cons.injEq] at h
    intro c hc
    rcases List.mem_cons.mp hc with rfl | hc
    · exact h.1
    · exact ih h.2 c hc

theorem length_stemKey_safe (name : PName) :
    (stemKey (safe_fname name)).length = min 200 name.length := by
  simp [stemKey, safe_fname, List.length_take]

/-- Claim C10: the artifact-name round trip is lossy. Saving under
`_safe_fname(product)` and loading via load_models (which derives the key
as the file stem with every underscore replaced by a space) recovers the
original name exactly when it has at most 200 characters, none of
`<>:"/\|?*`, and no underscore; a name containing an underscore or a
sanitised character comes back different, so a training-time metadata entry
keyed by the original name is not matched and the placeholder
`past_avg = 100` is used for the loaded key instead. -/
theorem C10_fname_roundtrip (name : PName) :
    (name.length ≤ 200 → (∀ c ∈ name, badChar c = false) → '_' ∉ name →
      stemKey (safe_fname name) = name) ∧
    ('_' ∈ name ∨ (∃ c ∈ name, badChar c = true) →
      stemKey (safe_fname name) ≠ name) ∧
    (∀ (rec : MetaRec) (m : PModel),
      '_' ∈ name ∨ (∃ c ∈ name, badChar c = true) →
      lookupA (load_models (some ⟨[⟨safe_fname name, some m⟩],
          some (some [(name, rec)])⟩)).2
        (stemKey (safe_fname name)) = some ⟨some 100⟩) := by
  have hcomp : ∀ s : PName, stemKey (safe_fname s) =
      ((s.map fun c => if badChar c then '_' else c).take 200).map
        fun c => if c = '_' then ' ' else c := fun s => rfl
  have hid : name.length ≤ 200 → stemKey (safe_fname name) =
      name.map fun c =>
        if (if badChar c then '_' else c) = '_' then ' '
        else if badChar c then '_' else c := by
    intro hlen
    rw [hcomp, List.take_of_length_le (by simpa using hlen), List.map_map]
    rfl
  have hne : '_' ∈ name ∨ (∃ c ∈ name, badChar c = true) →
      stemKey (safe_fname name) ≠ name := by
    intro hcase heq
    by_cases hlen : name.length ≤ 200
    · have hmem := map_eq_self_mem ((hid hlen).symm.trans heq)
      rcases hcase with hu | ⟨c, hc, hbad⟩
      · have := hmem '_' hu
        simp [badChar] at this
      · have := hmem c hc
        rw [hbad] at this
        simp only [if_pos, if_true] at this
        rw [← this] at hbad
        simp [badChar] at hbad
    · have hlc := congrArg List.length heq
      rw [length_stemKey_safe] at hlc
      omega
  refine ⟨fun hlen hgood hu => ?_, hne, fun rec m hcase => ?_⟩
  · rw [hid hlen]
    have : ∀ c ∈ name,
        (if (if badChar c then '_' else c) = '_' then ' '
         else if badChar c then '_' else c) = id c := by
      intro c hc
      rw [hgood c hc]
      simp only [if_false, Bool.false_eq_true]
      rw [if_neg (fun hch : c = '_' => hu (hch ▸ hc))]
      rfl
    rw [List.map_congr_left this, List.map_id]
  · have hkey : stemKey (safe_fname name) ≠ name := hne hcase
    have hload : load_models (some ⟨[⟨safe_fname name, some m⟩],
        some (some [(name, rec)])⟩) =
        List.foldl loadStep ([], [(name, rec)])
          [⟨safe_fname name, some m⟩] := rfl
    rw [hload, lookupA_loadFold]
    simp only [lookupA, if_neg hkey]
    rw [if_pos]
    simp

/-- Witness for C10: `"ab"` survives the round trip, `"a_b"` does not and
its loaded key gets the placeholder meta record. -/
theorem C10_fname_roundtrip_witness :
    stemKey (safe_fname ['a', 'b']) = ['a', 'b'] ∧
    stemKey (safe_fname ['a', '_', 'b']) ≠ ['a', '_', 'b'] ∧
    lookupA (load_models (some ⟨[⟨safe_fname ['a', '_', 'b'],
        some fun _ => none⟩],
        some (some [(['a', '_', 'b'], ⟨some 7⟩)])⟩)).2
      (stemKey (safe_fname ['a', '_', 'b'])) = some ⟨some 100⟩ := by
  have hgood : ∀ c ∈ (['a', 'b'] : List Char), badChar c = false := by decide
  exact ⟨(C10_fname_roundtrip ['a', 'b']).1 (by norm_num) hgood (by decide),
    (C10_fname_roundtrip ['a', '_', 'b']).2.1 (Or.inl (by decide)),
    (C10_fname_roundtrip ['a', '_', 'b']).2.2 ⟨some 7⟩ (fun _ => none)
      (Or.inl (by decide))⟩

end SalesSight
